import Mathlib

/-!
ResourceV2 admission plugin

A shallow embedding of `plugin/pkg/admission/resourcev2/admission.go` and a
verification of its rewrite of Pods: the scan for `nvidia.com/gpu`, the
extended-resource records it appends and what it leaves alone.

Modelling conventions.

* A Go `core.ResourceList` is a map that may be nil: `ResourceList` is an
  `Option` of a key-unique association list, `none` being the nil map.
* `range` over a map visits the entries of the association list in list order.
  Go leaves the order unspecified; `foldl_scanEntry` shows that the scan's
  result does not depend on it.
* Go maps are references. Every container is assumed to own its two maps (as
  for a decoded Pod), so a mutation through `pod.Spec.Containers[i]` is a
  functional update of that container alone.
* `uuid.NewUUID()` is external: `ids k` is the value its `k`-th call returns
  and the number of calls made so far is threaded through as `calls`.
-/

namespace ResourceV2

/-! ## Data model -/

/-- Go `core.ResourceName`, a string type. -/
abbrev ResourceName := String

/-- Go `resource.Quantity`. The plugin only copies quantities, so an integer
amount stands for the value. -/
abbrev Quantity := Int

/-- A non-nil Go map from `ResourceName` to `Quantity`: its entries, no key
twice. -/
structure ResourceMap where
  entries : List (ResourceName × Quantity)
  nodupKeys : (entries.map Prod.fst).Nodup

instance : DecidableEq ResourceMap := fun a b =>
  match a, b with
  | ⟨ea, _⟩, ⟨eb, _⟩ =>
    if h : ea = eb then isTrue (by subst h; rfl)
    else isFalse (fun h2 => h (congrArg ResourceMap.entries h2))

namespace ResourceMap

/-- The result of `make(core.ResourceList)`. -/
def empty : ResourceMap := ⟨[], List.nodup_nil⟩

/-- The keys of the map. -/
def keys (m : ResourceMap) : List ResourceName := m.entries.map Prod.fst

/-- Go `v, ok := m[k]`: `some v` when `ok`. -/
def lookup (m : ResourceMap) (k : ResourceName) : Option Quantity :=
  (m.entries.find? (fun e => decide (e.1 = k))).map Prod.snd

/-- Go `delete(m, k)`. -/
def erase (m : ResourceMap) (k : ResourceName) : ResourceMap :=
  ⟨m.entries.filter (fun e => decide (e.1 ≠ k)),
    (m.nodupKeys.sublist ((List.filter_sublist m.entries).map Prod.fst))⟩

/-- Go `m[k] = v`. -/
def insert (m : ResourceMap) (k : ResourceName) (v : Quantity) : ResourceMap :=
  ⟨(k, v) :: m.entries.filter (fun e => decide (e.1 ≠ k)), by
    rw [List.map_cons, List.nodup_cons]
    refine ⟨?_, (m.nodupKeys.sublist ((List.filter_sublist m.entries).map Prod.fst))⟩
    intro h
    obtain ⟨e, he, hk⟩ := List.mem_map.1 h
    have := (List.mem_filter.1 he).2
    simp at this
    exact this hk⟩

end ResourceMap

/-- Go `core.ResourceList`: `none` is the nil map. -/
abbrev ResourceList := Option ResourceMap

namespace ResourceList

/-- Go `v, ok := l[k]` on a possibly nil map. -/
def get (l : ResourceList) (k : ResourceName) : Option Quantity :=
  match l with
  | none => none
  | some m => m.lookup k

/-- Go `delete(l, k)` on a possibly nil map (a no-op on nil). -/
def delete (l : ResourceList) (k : ResourceName) : ResourceList :=
  match l with
  | none => none
  | some m => some (m.erase k)

/-- The entries `for k, v := range l` visits (none for the nil map). -/
def range (l : ResourceList) : List (ResourceName × Quantity) :=
  match l with
  | none => []
  | some m => m.entries

end ResourceList

/-- Go `core.ResourceRequirements`. -/
structure ResourceRequirements where
  Limits : ResourceList
  Requests : ResourceList
deriving DecidableEq

/-- Go `core.Container`: the fields the plugin touches, and `Name` standing
for the fields it never reads or writes. -/
structure Container where
  Name : String
  Resources : ResourceRequirements
  ExtendedResourceRequests : List String
deriving DecidableEq

/-- Go `core.PodExtendedResource`. -/
structure PodExtendedResource where
  Name : String
  Resources : ResourceRequirements
deriving DecidableEq

/-- Go `core.PodSpec`: the three sequences the plugin works on. -/
structure PodSpec where
  InitContainers : List Container
  Containers : List Container
  ExtendedResources : List PodExtendedResource
deriving DecidableEq

/-- Go `core.Pod`. -/
structure Pod where
  Spec : PodSpec
deriving DecidableEq

/-- Go `schema.GroupResource`. -/
structure GroupResource where
  Group : String
  Resource : String
deriving DecidableEq

/-- Go `core.Resource(resource)`: the resource qualified with the core API
group, whose name is the empty string. -/
def coreResource (resource : String) : GroupResource := ⟨"", resource⟩

/-- The object of an admission request: a `*core.Pod`, or a value of another
Go type (named by `goType`, what `%T` prints). -/
inductive Object where
  | pod (p : Pod)
  | other (goType : String)
deriving DecidableEq

/-- What `Admit` reads of `admission.Attributes`: `GetSubresource()`,
`GetResource().GroupResource()` and `GetObject()`. -/
structure Attributes where
  subresource : String
  resource : GroupResource
  object : Object
deriving DecidableEq

/-- The error values `Admit` can return: `errors.NewBadRequest(message)`. -/
inductive StatusError where
  | badRequest (message : String)
deriving DecidableEq

/-- What a call of `Admit` leaves behind: the returned error (`none` for
nil), the object as mutated in place, and the number of identifiers drawn from
the generator so far. -/
structure Outcome where
  err : Option StatusError
  object : Object
  calls : Nat
deriving DecidableEq

/-- The one resource kind the plugin intercepts. -/
def gpu : ResourceName := "nvidia.com/gpu"

/-! ## The functions of `admission.go` -/

/-- Go `FillRequests`: a container with a nil requests map is returned as it
is; otherwise the requests are copied entry by entry into a fresh map, which
becomes the limits of the returned copy. -/
def FillRequests (ctr : Container) : Container :=
  match ctr.Resources.Requests with
  | none => ctr
  | some reqs =>
    let requests := reqs.entries.foldl (fun m e => m.insert e.1 e.2) ResourceMap.empty
    { ctr with Resources := { ctr.Resources with Limits := some requests } }

/-- Go `newExtendedResource`: draws one identifier and builds the record; the
third component is the generator's new call count. -/
def newExtendedResource (ids : Nat → String) (calls : Nat) (rName : ResourceName)
    (val : Quantity) : String × PodExtendedResource × Nat :=
  let name := ids calls
  (name,
   { Name := name
     Resources :=
      { Limits := some (ResourceMap.empty.insert rName val)
        Requests := some (ResourceMap.empty.insert rName val) } },
   calls + 1)

/-- Go `deleteRes`, the mutation through the pointer returned as a value. -/
def deleteRes (resources : ResourceRequirements) (rName : ResourceName) :
    ResourceRequirements :=
  let resources :=
    if (resources.Requests.get rName).isSome then
      { resources with Requests := resources.Requests.delete rName }
    else resources
  if (resources.Limits.get rName).isSome then
    { resources with Limits := resources.Limits.delete rName }
  else resources

/-- The part of the Pod one iteration of a container loop of `Admit` can
write: `pod.Spec.(Init)Containers[i]`, `pod.Spec.ExtendedResources`, and the
generator's call count. -/
structure PassState where
  ctr : Container
  extendedResources : List PodExtendedResource
  calls : Nat
deriving DecidableEq

/-- The body of the inner loop of `Admit` for one entry `resourceName, val`
of the scanned map. -/
def scanEntry (ids : Nat → String) (st : PassState) (e : ResourceName × Quantity) :
    PassState :=
  if e.1 ≠ "nvidia.com/gpu" then st
  else
    match newExtendedResource ids st.calls e.1 e.2 with
    | (name, eRes, calls) =>
      { ctr :=
          { st.ctr with
            ExtendedResourceRequests := [name]
            Resources := deleteRes st.ctr.Resources e.1 }
        extendedResources := st.extendedResources ++ [eRes]
        calls := calls }

/-- One iteration of a container loop of `Admit`: the inner loop over
`FillRequests(container).Resources.Limits`, started on the container as it is
in the Pod. -/
def admitContainer (ids : Nat → String) (container : Container)
    (extendedResources : List PodExtendedResource) (calls : Nat) : PassState :=
  (FillRequests container).Resources.Limits.range.foldl (scanEntry ids)
    ⟨container, extendedResources, calls⟩

/-- A container loop of `Admit` (`for i, container := range ...`): iteration
`i` writes element `i` only, so the slice is rebuilt element by element while
the record sequence and the call count are threaded through. -/
def admitContainers (ids : Nat → String) :
    List Container → List PodExtendedResource → Nat →
      List Container × List PodExtendedResource × Nat
  | [], extendedResources, calls => ([], extendedResources, calls)
  | container :: rest, extendedResources, calls =>
    let st := admitContainer ids container extendedResources calls
    let r := admitContainers ids rest st.extendedResources st.calls
    (st.ctr :: r.1, r.2.1, r.2.2)

/-- Go `(*plugin).Admit`. The request is declined unless it is for the core
`pods` resource with no subresource; an object that is not a `*core.Pod` is a
bad request; otherwise the init containers and then the regular containers are
scanned. -/
def Admit (ids : Nat → String) (calls : Nat) (attributes : Attributes) : Outcome :=
  if attributes.subresource.length ≠ 0 ∨ attributes.resource ≠ coreResource "pods" then
    ⟨none, attributes.object, calls⟩
  else
    match attributes.object with
    | .other goType =>
      ⟨some (.badRequest ("expected *core.Pod but got " ++ goType)), attributes.object, calls⟩
    | .pod pod =>
      let r1 := admitContainers ids pod.Spec.InitContainers pod.Spec.ExtendedResources calls
      let r2 := admitContainers ids pod.Spec.Containers r1.2.1 r1.2.2
      ⟨none,
       .pod { Spec := { InitContainers := r1.1, Containers := r2.1, ExtendedResources := r2.2.1 } },
       r2.2.2⟩

/-! ## Vocabulary of the specification -/

/-- An admission request that passes the filter of `Admit`: the core `pods`
resource, no subresource, and a Pod as object. -/
def podRequest (pod : Pod) : Attributes := ⟨"", coreResource "pods", .pod pod⟩

/-- A map literal with one entry. -/
def single (k : ResourceName) (v : Quantity) : ResourceList :=
  some (ResourceMap.empty.insert k v)

/-- The quantity the scan finds for a container, in the words of the
specification: the `nvidia.com/gpu` entry of its requests when the requests
mapping is set, of its limits otherwise. -/
def scanned (c : Container) : Option Quantity :=
  match c.Resources.Requests with
  | some reqs => reqs.lookup gpu
  | none => c.Resources.Limits.get gpu

/-- The record the specification expects for a scanned quantity `q` under the
identifier `id`. -/
def recordFor (id : String) (q : Quantity) : PodExtendedResource :=
  { Name := id, Resources := { Limits := single gpu q, Requests := single gpu q } }

/-- All containers of a Pod in processing order: init containers first. -/
def allContainers (pod : Pod) : List Container :=
  pod.Spec.InitContainers ++ pod.Spec.Containers

/-- The container a matching iteration of `Admit` leaves in the Pod: its
reference sequence is `[id]` and `deleteRes` has run on its resources. -/
def rewritten (id : String) (c : Container) : Container :=
  { c with
    ExtendedResourceRequests := [id]
    Resources := deleteRes c.Resources gpu }

/-- The containers a loop of `Admit` is expected to leave, the generator
having been called `n` times before: a container with a scanned quantity is
rewritten under the next identifier, any other is kept. -/
def passOver (ids : Nat → String) : Nat → List Container → List Container
  | _, [] => []
  | n, c :: cs =>
    match scanned c with
    | none => c :: passOver ids n cs
    | some _ => rewritten (ids n) c :: passOver ids (n + 1) cs

/-- The records a loop of `Admit` is expected to append, the generator having
been called `n` times before: one per container with a scanned quantity, in
order. -/
def recordsOver (ids : Nat → String) : Nat → List Container → List PodExtendedResource
  | _, [] => []
  | n, c :: cs =>
    match scanned c with
    | none => recordsOver ids n cs
    | some q => recordFor (ids n) q :: recordsOver ids (n + 1) cs

/-- The scanned quantities of the containers that have one, in order. -/
def scannedQuantities (cs : List Container) : List Quantity := cs.filterMap scanned

/-- What one iteration of a container loop of `Admit` may do to a container
`c`, leaving `c1`: nothing when `c` has no scanned quantity, the rewrite under
some identifier of the generator when it has one. -/
def Rewrites (ids : Nat → String) (c c1 : Container) : Prop :=
  (scanned c = none ∧ c1 = c) ∨ (∃ q k, scanned c = some q ∧ c1 = rewritten (ids k) c)

/-- The relation `EachContainer R pod pod1`: the two Pods have as many init containers and
as many regular containers, and `R c c1` holds of every container `c` of `pod`
and the container `c1` at its place in `pod1`. -/
def EachContainer (R : Container → Container → Prop) (pod pod1 : Pod) : Prop :=
  List.Forall₂ R pod.Spec.InitContainers pod1.Spec.InitContainers ∧
    List.Forall₂ R pod.Spec.Containers pod1.Spec.Containers

/-- The containers that had a scanned quantity before `Admit`, each paired
with the container found at its place afterwards, in order. -/
def matchedPairs (before after : List Container) : List (Container × Container) :=
  (before.zip after).filter (fun p => (scanned p.1).isSome)

/-- The list `cs` with `c` put in at position `i` (at the end when `i` is
beyond it). -/
def putAt (cs : List Container) (i : Nat) (c : Container) : List Container :=
  cs.take i ++ c :: cs.drop i

/-- The Pod `pod` with one more container `c`, at position `i` of its init
containers when `init` is true, of its regular containers otherwise. -/
def withContainer (pod : Pod) (init : Bool) (i : Nat) (c : Container) : Pod :=
  if init then
    { Spec := { pod.Spec with InitContainers := putAt pod.Spec.InitContainers i c } }
  else
    { Spec := { pod.Spec with Containers := putAt pod.Spec.Containers i c } }

/-! ## Sample data -/

/-- A generator returning `u`, `uu`, `uuu`, ... on its successive calls. -/
def sampleIds : Nat → String := fun n => String.mk (List.replicate (n + 1) 'u')

/-- Requests `cpu: 2`, no limits. -/
def cpuOnly : Container :=
  { Name := "app", Resources := { Limits := none, Requests := single "cpu" 2 },
    ExtendedResourceRequests := [] }

/-- Requests `cpu: 1` and limits `nvidia.com/gpu: 1`. -/
def gpuLimitCpuRequest : Container :=
  { Name := "app", Resources := { Limits := single gpu 1, Requests := single "cpu" 1 },
    ExtendedResourceRequests := [] }

/-- No requests (nil), limits `nvidia.com/gpu: 1`, and a prior reference. -/
def gpuLimitOnly : Container :=
  { Name := "app", Resources := { Limits := single gpu 1, Requests := none },
    ExtendedResourceRequests := ["old"] }

/-- Requests set but empty, limits `nvidia.com/gpu: 1`, and a prior reference. -/
def gpuLimitEmptyRequests : Container :=
  { Name := "side", Resources := { Limits := single gpu 1, Requests := some ResourceMap.empty },
    ExtendedResourceRequests := ["old"] }

/-- Requests `nvidia.com/gpu: q`, no limits, and a prior reference. -/
def gpuRequest (name : String) (q : Quantity) : Container :=
  { Name := name, Resources := { Limits := none, Requests := single gpu q },
    ExtendedResourceRequests := ["old"] }

/-- Limits `cpu: 4, memory: 8Gi`, no requests. -/
def cpuMemoryLimits : Container :=
  { Name := "app"
    Resources :=
      { Limits := some ((ResourceMap.empty.insert "memory" 8589934592).insert "cpu" 4)
        Requests := none }
    ExtendedResourceRequests := [] }

/-- Three containers asking for GPUs, one of them an init container. -/
def threeGpuPod : Pod :=
  { Spec :=
      { InitContainers := [gpuRequest "init" 1]
        Containers := [gpuRequest "a" 2, gpuRequest "b" 4]
        ExtendedResources := [] } }

/-- A Pod with the given regular containers and nothing else. -/
def podOf (cs : List Container) : Pod :=
  { Spec := { InitContainers := [], Containers := cs, ExtendedResources := [] } }

/-- One init container and two regular containers asking for GPUs, and a
regular container that does not. -/
def mixedPod : Pod :=
  { Spec :=
      { InitContainers := [gpuRequest "init" 1]
        Containers := [gpuRequest "a" 2, cpuOnly, gpuRequest "b" 3]
        ExtendedResources := [] } }

/-- The extraction condition in the words of the specification: the requests
mapping contains `nvidia.com/gpu`, or it is unset (nil) and the limits mapping
contains `nvidia.com/gpu`. -/
def extractionCondition (c : Container) : Bool :=
  (c.Resources.Requests.get gpu).isSome ||
    (c.Resources.Requests.isNone && (c.Resources.Limits.get gpu).isSome)

/-- Requests `cpu: 1` and limits `cpu: 2`: both are specified. -/
def cpuRequestAndLimit : Container :=
  { Name := "app", Resources := { Limits := single "cpu" 2, Requests := single "cpu" 1 },
    ExtendedResourceRequests := [] }

/-- A request for the `status` subresource of a Pod that asks for a GPU. -/
def statusRequest : Attributes :=
  { subresource := "status", resource := coreResource "pods",
    object := .pod (podOf [gpuRequest "a" 1]) }

/-- A request for the core `pods` resource whose object is not a Pod. -/
def mistypedRequest : Attributes :=
  { subresource := "", resource := coreResource "pods", object := .other "*core.Service" }

/-! ## Lemmas on maps -/

namespace ResourceMap

theorem lookup_eq_none_iff (m : ResourceMap) (k : ResourceName) :
    m.lookup k = none ↔ k ∉ m.keys := by
  unfold lookup keys
  rw [Option.map_eq_none', List.find?_eq_none]
  simp only [decide_eq_true_eq, List.mem_map, not_exists, not_and]

theorem find_of_mem :
    ∀ (l : List (ResourceName × Quantity)) (k : ResourceName) (v : Quantity),
      (l.map Prod.fst).Nodup → (k, v) ∈ l →
        l.find? (fun e => decide (e.1 = k)) = some (k, v)
  | [], _, _, _, h => by cases h
  | (a, b) :: l, k, v, hnd, h => by
    rw [List.map_cons, List.nodup_cons] at hnd
    by_cases hak : a = k
    · subst hak
      rcases List.mem_cons.1 h with h | h
      · cases h; simp
      · exact absurd (List.mem_map.2 ⟨(a, v), h, rfl⟩) hnd.1
    · rcases List.mem_cons.1 h with h | h
      · cases h; exact absurd rfl hak
      · rw [List.find?_cons_of_neg _ (by simpa using hak)]
        exact find_of_mem l k v hnd.2 h

theorem lookup_eq_some_iff (m : ResourceMap) (k : ResourceName) (v : Quantity) :
    m.lookup k = some v ↔ (k, v) ∈ m.entries := by
  constructor
  · intro h
    unfold lookup at h
    obtain ⟨e, he, hv⟩ := Option.map_eq_some'.1 h
    have hk : e.1 = k := by simpa using List.find?_some he
    have hm := List.mem_of_find?_eq_some he
    rcases e with ⟨a, b⟩
    simp only at hk hv
    subst hk; subst hv
    exact hm
  · intro h
    unfold lookup
    rw [find_of_mem m.entries k v m.nodupKeys h]
    rfl

theorem lookup_erase_self (m : ResourceMap) (k : ResourceName) :
    (m.erase k).lookup k = none := by
  rw [lookup_eq_none_iff]
  unfold keys erase
  simp only [List.mem_map, List.mem_filter, not_exists, not_and]
  rintro e ⟨_, h⟩ hk
  simp at h
  exact h hk

theorem find_filter_ne (l : List (ResourceName × Quantity)) {k k' : ResourceName}
    (h : k' ≠ k) :
    (l.filter (fun e => decide (e.1 ≠ k))).find? (fun e => decide (e.1 = k')) =
      l.find? (fun e => decide (e.1 = k')) := by
  induction l with
  | nil => rfl
  | cons e l ih =>
    by_cases he : e.1 = k
    · have hne : ¬ e.1 = k' := fun h2 => h (h2.symm.trans he)
      rw [List.filter_cons_of_neg (by simpa using he),
        List.find?_cons_of_neg _ (by simpa using hne)]
      exact ih
    · rw [List.filter_cons_of_pos (by simpa using he)]
      by_cases hk : e.1 = k'
      · rw [List.find?_cons_of_pos _ (by simpa using hk),
          List.find?_cons_of_pos _ (by simpa using hk)]
      · rw [List.find?_cons_of_neg _ (by simpa using hk),
          List.find?_cons_of_neg _ (by simpa using hk)]
        exact ih

theorem lookup_erase_ne (m : ResourceMap) {k k' : ResourceName} (h : k' ≠ k) :
    (m.erase k).lookup k' = m.lookup k' := by
  unfold lookup erase
  rw [find_filter_ne m.entries h]

theorem erase_of_lookup_none (m : ResourceMap) (k : ResourceName)
    (h : m.lookup k = none) : m.erase k = m := by
  rw [lookup_eq_none_iff] at h
  rcases m with ⟨l, hnd⟩
  unfold erase
  congr 1
  simp only
  rw [List.filter_eq_self]
  intro e he
  simp only [ne_eq, decide_not, Bool.not_eq_eq_eq_not, Bool.not_true, decide_eq_false_iff_not]
  intro hk
  exact h (List.mem_map.2 ⟨e, he, hk⟩)

theorem lookup_insert_self (m : ResourceMap) (k : ResourceName) (v : Quantity) :
    (m.insert k v).lookup k = some v := by
  unfold lookup insert
  simp

theorem lookup_insert_ne (m : ResourceMap) {k k' : ResourceName} (v : Quantity)
    (h : k' ≠ k) : (m.insert k v).lookup k' = m.lookup k' := by
  unfold lookup insert
  simp only
  rw [List.find?_cons_of_neg _ (by simpa using h.symm), find_filter_ne m.entries h]

theorem lookup_foldl_insert_of_not_mem :
    ∀ (l : List (ResourceName × Quantity)) (m0 : ResourceMap) (k : ResourceName),
      k ∉ l.map Prod.fst →
        (l.foldl (fun m e => m.insert e.1 e.2) m0).lookup k = m0.lookup k
  | [], _, _, _ => rfl
  | (a, b) :: l, m0, k, h => by
    rw [List.map_cons, List.mem_cons, not_or] at h
    rw [List.foldl_cons, lookup_foldl_insert_of_not_mem l _ k h.2]
    exact lookup_insert_ne m0 b h.1

theorem lookup_foldl_insert_of_mem :
    ∀ (l : List (ResourceName × Quantity)) (m0 : ResourceMap) (k : ResourceName)
      (v : Quantity), (l.map Prod.fst).Nodup → (k, v) ∈ l →
        (l.foldl (fun m e => m.insert e.1 e.2) m0).lookup k = some v
  | [], _, _, _, _, h => by cases h
  | (a, b) :: l, m0, k, v, hnd, h => by
    rw [List.map_cons, List.nodup_cons] at hnd
    rw [List.foldl_cons]
    rcases List.mem_cons.1 h with h | h
    · cases h
      rw [lookup_foldl_insert_of_not_mem l _ a hnd.1]
      exact lookup_insert_self m0 a b
    · exact lookup_foldl_insert_of_mem l _ k v hnd.2 h

/-- The copy loop of `FillRequests` yields a map with the keys and quantities
of the map it copies. -/
theorem lookup_copy (m : ResourceMap) (k : ResourceName) :
    (m.entries.foldl (fun m e => m.insert e.1 e.2) empty).lookup k = m.lookup k := by
  cases h : m.lookup k with
  | none =>
    rw [lookup_foldl_insert_of_not_mem _ _ _ ((lookup_eq_none_iff m k).1 h)]
    rfl
  | some v =>
    exact lookup_foldl_insert_of_mem _ _ _ _ m.nodupKeys ((lookup_eq_some_iff m k v).1 h)

end ResourceMap

/-! ## Lemmas on resource lists and `deleteRes` -/

namespace ResourceList

theorem get_delete_self (l : ResourceList) (k : ResourceName) : (l.delete k).get k = none := by
  cases l with
  | none => rfl
  | some m => exact ResourceMap.lookup_erase_self m k

theorem get_delete_ne (l : ResourceList) {k k' : ResourceName} (h : k' ≠ k) :
    (l.delete k).get k' = l.get k' := by
  cases l with
  | none => rfl
  | some m => exact ResourceMap.lookup_erase_ne m h

theorem delete_of_get_none (l : ResourceList) (k : ResourceName) (h : l.get k = none) :
    l.delete k = l := by
  cases l with
  | none => rfl
  | some m => exact congrArg some (ResourceMap.erase_of_lookup_none m k h)

theorem nodup_range (l : ResourceList) : (l.range.map Prod.fst).Nodup := by
  cases l with
  | none => exact List.nodup_nil
  | some m => exact m.nodupKeys

theorem find_range (l : ResourceList) (k : ResourceName) :
    (l.range.find? (fun e => decide (e.1 = k))).map Prod.snd = l.get k := by
  cases l with
  | none => rfl
  | some m => rfl

end ResourceList

theorem deleteRes_requests (r : ResourceRequirements) (k : ResourceName) :
    (deleteRes r k).Requests = r.Requests.delete k := by
  cases h1 : r.Requests.get k <;> cases h2 : r.Limits.get k <;>
    simp [deleteRes, h1, h2, ResourceList.delete_of_get_none]

theorem deleteRes_limits (r : ResourceRequirements) (k : ResourceName) :
    (deleteRes r k).Limits = r.Limits.delete k := by
  cases h1 : r.Requests.get k <;> cases h2 : r.Limits.get k <;>
    simp [deleteRes, h1, h2, ResourceList.delete_of_get_none]

theorem deleteRes_of_absent (r : ResourceRequirements) (k : ResourceName)
    (h1 : r.Requests.get k = none) (h2 : r.Limits.get k = none) : deleteRes r k = r := by
  unfold deleteRes
  simp [h1, h2]

/-! ## The scan of one container -/

theorem scanEntry_of_ne (ids : Nat → String) (st : PassState) (e : ResourceName × Quantity)
    (h : e.1 ≠ gpu) : scanEntry ids st e = st := by
  unfold scanEntry
  exact if_pos h

theorem scanEntry_gpu (ids : Nat → String) (c : Container)
    (ers : List PodExtendedResource) (n : Nat) (q : Quantity) :
    scanEntry ids ⟨c, ers, n⟩ (gpu, q) =
      ⟨rewritten (ids n) c, ers ++ [recordFor (ids n) q], n + 1⟩ := by
  rfl

theorem foldl_scanEntry_of_not_mem (ids : Nat → String) :
    ∀ (l : List (ResourceName × Quantity)) (st : PassState),
      gpu ∉ l.map Prod.fst → l.foldl (scanEntry ids) st = st
  | [], _, _ => rfl
  | e :: l, st, h => by
    rw [List.map_cons, List.mem_cons, not_or] at h
    rw [List.foldl_cons, scanEntry_of_ne ids st e (fun h2 => h.1 h2.symm)]
    exact foldl_scanEntry_of_not_mem ids l st h.2

/-- The inner loop of `Admit` over a key-unique entry list runs its body on
the `nvidia.com/gpu` entry, if there is one, and on nothing else, wherever
that entry stands in the list. -/
theorem foldl_scanEntry (ids : Nat → String) :
    ∀ (l : List (ResourceName × Quantity)) (st : PassState),
      (l.map Prod.fst).Nodup →
        l.foldl (scanEntry ids) st =
          match l.find? (fun e => decide (e.1 = gpu)) with
          | none => st
          | some e => scanEntry ids st e
  | [], _, _ => rfl
  | e :: l, st, hnd => by
    rw [List.map_cons, List.nodup_cons] at hnd
    rw [List.foldl_cons]
    by_cases he : e.1 = gpu
    · rw [List.find?_cons_of_pos _ (by simpa using he)]
      exact foldl_scanEntry_of_not_mem ids l _ (he ▸ hnd.1)
    · rw [List.find?_cons_of_neg _ (by simpa using he), scanEntry_of_ne ids st e he]
      exact foldl_scanEntry ids l st hnd.2

/-- What the scan of `Admit` reads under key `k`: the requests entry when the
requests map is non-nil, the limits entry otherwise. -/
theorem FillRequests_limits_get (c : Container) (k : ResourceName) :
    (FillRequests c).Resources.Limits.get k =
      match c.Resources.Requests with
      | some reqs => reqs.lookup k
      | none => c.Resources.Limits.get k := by
  unfold FillRequests
  cases h : c.Resources.Requests with
  | none => rfl
  | some reqs => exact ResourceMap.lookup_copy reqs k

theorem FillRequests_limits_get_gpu (c : Container) :
    (FillRequests c).Resources.Limits.get gpu = scanned c :=
  FillRequests_limits_get c gpu

/-- One iteration of a container loop of `Admit`: nothing happens without a
scanned quantity; with one, the container is rewritten under the next
identifier and one record is appended. -/
theorem admitContainer_eq (ids : Nat → String) (c : Container)
    (ers : List PodExtendedResource) (n : Nat) :
    admitContainer ids c ers n =
      match scanned c with
      | none => ⟨c, ers, n⟩
      | some q => ⟨rewritten (ids n) c, ers ++ [recordFor (ids n) q], n + 1⟩ := by
  unfold admitContainer
  rw [foldl_scanEntry ids _ _ (ResourceList.nodup_range _)]
  have hget := FillRequests_limits_get_gpu c
  rw [← ResourceList.find_range] at hget
  cases hf : (FillRequests c).Resources.Limits.range.find? (fun e => decide (e.1 = gpu)) with
  | none =>
    rw [hf] at hget
    rw [← hget]
    rfl
  | some e =>
    rw [hf] at hget
    have hk : e.1 = gpu := by simpa using List.find?_some hf
    rw [← hget]
    rcases e with ⟨a, b⟩
    simp only at hk
    subst hk
    exact scanEntry_gpu ids c ers n b

/-- A container loop of `Admit`, in closed form. -/
theorem admitContainers_eq (ids : Nat → String) :
    ∀ (cs : List Container) (ers : List PodExtendedResource) (n : Nat),
      admitContainers ids cs ers n =
        (passOver ids n cs, ers ++ recordsOver ids n cs, n + (scannedQuantities cs).length)
  | [], ers, n => by simp [admitContainers, passOver, recordsOver, scannedQuantities]
  | c :: cs, ers, n => by
    unfold admitContainers
    simp only
    rw [admitContainer_eq]
    cases h : scanned c with
    | none =>
      simp only [admitContainers_eq ids cs, passOver, recordsOver, scannedQuantities, h,
        List.filterMap_cons]
    | some q =>
      simp only [admitContainers_eq ids cs, passOver, recordsOver, scannedQuantities, h,
        List.filterMap_cons, List.append_assoc, List.singleton_append, List.length_cons]
      simp only [Nat.add_assoc, Nat.add_comm 1]

/-- The call of `Admit` on a request for a Pod, in closed form: no error, and the Pod
rewritten by the loop over the init containers followed by the loop over the
regular containers. -/
theorem Admit_podRequest (ids : Nat → String) (calls : Nat) (pod : Pod) :
    Admit ids calls (podRequest pod) =
      ⟨none,
       .pod
        { Spec :=
            { InitContainers := passOver ids calls pod.Spec.InitContainers
              Containers :=
                passOver ids (calls + (scannedQuantities pod.Spec.InitContainers).length)
                  pod.Spec.Containers
              ExtendedResources :=
                pod.Spec.ExtendedResources ++
                  (recordsOver ids calls pod.Spec.InitContainers ++
                    recordsOver ids (calls + (scannedQuantities pod.Spec.InitContainers).length)
                      pod.Spec.Containers) } },
       calls + (scannedQuantities pod.Spec.InitContainers).length +
         (scannedQuantities pod.Spec.Containers).length⟩ := by
  have hfilter : ¬ ((podRequest pod).subresource.length ≠ 0 ∨
      (podRequest pod).resource ≠ coreResource "pods") := by
    simp [podRequest]
  unfold Admit
  rw [if_neg hfilter]
  simp only [podRequest, admitContainers_eq, List.append_assoc]

/-! ## The container loops in closed form -/

theorem passOver_cons_none (ids : Nat → String) (n : Nat) {c : Container}
    (cs : List Container) (h : scanned c = none) :
    passOver ids n (c :: cs) = c :: passOver ids n cs := by
  rw [passOver, h]

theorem passOver_cons_some (ids : Nat → String) (n : Nat) {c : Container} {q : Quantity}
    (cs : List Container) (h : scanned c = some q) :
    passOver ids n (c :: cs) = rewritten (ids n) c :: passOver ids (n + 1) cs := by
  rw [passOver, h]

theorem recordsOver_cons_none (ids : Nat → String) (n : Nat) {c : Container}
    (cs : List Container) (h : scanned c = none) :
    recordsOver ids n (c :: cs) = recordsOver ids n cs := by
  rw [recordsOver, h]

theorem recordsOver_cons_some (ids : Nat → String) (n : Nat) {c : Container} {q : Quantity}
    (cs : List Container) (h : scanned c = some q) :
    recordsOver ids n (c :: cs) = recordFor (ids n) q :: recordsOver ids (n + 1) cs := by
  rw [recordsOver, h]

theorem scannedQuantities_cons_none {c : Container} (cs : List Container)
    (h : scanned c = none) : scannedQuantities (c :: cs) = scannedQuantities cs := by
  unfold scannedQuantities
  rw [List.filterMap_cons, h]

theorem scannedQuantities_cons_some {c : Container} {q : Quantity} (cs : List Container)
    (h : scanned c = some q) : scannedQuantities (c :: cs) = q :: scannedQuantities cs := by
  unfold scannedQuantities
  rw [List.filterMap_cons, h]

theorem passOver_rewrites (ids : Nat → String) :
    ∀ (cs : List Container) (n : Nat), List.Forall₂ (Rewrites ids) cs (passOver ids n cs)
  | [], _ => List.Forall₂.nil
  | c :: cs, n => by
    unfold passOver
    cases h : scanned c with
    | none => exact List.Forall₂.cons (Or.inl ⟨h, rfl⟩) (passOver_rewrites ids cs n)
    | some q =>
      exact List.Forall₂.cons (Or.inr ⟨q, n, h, rfl⟩) (passOver_rewrites ids cs (n + 1))

theorem length_passOver (ids : Nat → String) (cs : List Container) (n : Nat) :
    (passOver ids n cs).length = cs.length :=
  (passOver_rewrites ids cs n).length_eq.symm

theorem length_recordsOver (ids : Nat → String) :
    ∀ (cs : List Container) (n : Nat),
      (recordsOver ids n cs).length = (scannedQuantities cs).length
  | [], _ => rfl
  | c :: cs, n => by
    unfold recordsOver scannedQuantities
    cases h : scanned c with
    | none =>
      simp only [List.filterMap_cons, h]
      exact length_recordsOver ids cs n
    | some q =>
      simp only [List.filterMap_cons, h, List.length_cons]
      exact congrArg (· + 1) (length_recordsOver ids cs (n + 1))

theorem scannedQuantities_append (a b : List Container) :
    scannedQuantities (a ++ b) = scannedQuantities a ++ scannedQuantities b :=
  List.filterMap_append a b scanned

theorem passOver_append (ids : Nat → String) :
    ∀ (a b : List Container) (n : Nat),
      passOver ids n (a ++ b) =
        passOver ids n a ++ passOver ids (n + (scannedQuantities a).length) b
  | [], b, n => by simp [passOver, scannedQuantities]
  | c :: a, b, n => by
    rw [List.cons_append]
    cases h : scanned c with
    | none =>
      rw [passOver_cons_none ids n _ h, passOver_cons_none ids n _ h,
        scannedQuantities_cons_none _ h, passOver_append ids a b n, List.cons_append]
    | some q =>
      rw [passOver_cons_some ids n _ h, passOver_cons_some ids n _ h,
        scannedQuantities_cons_some _ h, passOver_append ids a b (n + 1), List.cons_append,
        List.length_cons, Nat.add_assoc, Nat.add_comm 1]

theorem recordsOver_append (ids : Nat → String) :
    ∀ (a b : List Container) (n : Nat),
      recordsOver ids n (a ++ b) =
        recordsOver ids n a ++ recordsOver ids (n + (scannedQuantities a).length) b
  | [], b, n => by simp [recordsOver, scannedQuantities]
  | c :: a, b, n => by
    rw [List.cons_append]
    cases h : scanned c with
    | none =>
      rw [recordsOver_cons_none ids n _ h, recordsOver_cons_none ids n _ h,
        scannedQuantities_cons_none _ h, recordsOver_append ids a b n]
    | some q =>
      rw [recordsOver_cons_some ids n _ h, recordsOver_cons_some ids n _ h,
        scannedQuantities_cons_some _ h, recordsOver_append ids a b (n + 1), List.cons_append,
        List.length_cons, Nat.add_assoc, Nat.add_comm 1]

/-- The `j`-th record a loop appends is the record for the `j`-th scanned
quantity under the `j`-th identifier drawn. -/
theorem getElem?_recordsOver (ids : Nat → String) :
    ∀ (cs : List Container) (n j : Nat),
      (recordsOver ids n cs)[j]? =
        ((scannedQuantities cs)[j]?).map (recordFor (ids (n + j)))
  | [], _, _ => by simp [recordsOver, scannedQuantities]
  | c :: cs, n, j => by
    unfold recordsOver scannedQuantities
    cases h : scanned c with
    | none =>
      simp only [List.filterMap_cons, h]
      exact getElem?_recordsOver ids cs n j
    | some q =>
      simp only [List.filterMap_cons, h]
      cases j with
      | zero => simp
      | succ j =>
        simp only [List.getElem?_cons_succ]
        rw [getElem?_recordsOver ids cs (n + 1) j]
        simp only [scannedQuantities, Nat.add_assoc, Nat.add_comm 1]

/-- The names of the records a loop appends are the identifiers drawn, in the
order of the calls. -/
theorem names_recordsOver (ids : Nat → String) :
    ∀ (cs : List Container) (n : Nat),
      (recordsOver ids n cs).map PodExtendedResource.Name =
        (List.range' n (scannedQuantities cs).length).map ids
  | [], _ => rfl
  | c :: cs, n => by
    unfold recordsOver scannedQuantities
    cases h : scanned c with
    | none =>
      simp only [List.filterMap_cons, h]
      exact names_recordsOver ids cs n
    | some q =>
      simp only [List.filterMap_cons, h, List.map_cons, List.length_cons, List.range'_succ]
      exact congrArg (ids n :: ·) (names_recordsOver ids cs (n + 1))

/-- The containers with a scanned quantity reference, one to one and in
order, the records the loop appends; each such record holds the quantity
scanned for its container. -/
theorem matchedPairs_passOver (ids : Nat → String) :
    ∀ (cs : List Container) (n : Nat),
      (matchedPairs cs (passOver ids n cs)).map
          (fun p => (scanned p.1, p.2.ExtendedResourceRequests)) =
        (recordsOver ids n cs).map (fun r => (r.Resources.Limits.get gpu, [r.Name]))
  | [], _ => rfl
  | c :: cs, n => by
    unfold matchedPairs passOver recordsOver
    cases h : scanned c with
    | none =>
      simp only [List.zip_cons_cons, List.filter_cons, h, Option.isSome_none]
      exact matchedPairs_passOver ids cs n
    | some q =>
      simp only [List.zip_cons_cons, List.filter_cons, h, Option.isSome_some, if_true,
        List.map_cons]
      have ih := matchedPairs_passOver ids cs (n + 1)
      unfold matchedPairs at ih
      rw [ih]
      rfl

theorem passOver_of_none (ids : Nat → String) :
    ∀ (cs : List Container) (n : Nat), (∀ c ∈ cs, scanned c = none) → passOver ids n cs = cs
  | [], _, _ => rfl
  | c :: cs, n, h => by
    unfold passOver
    rw [h c (List.mem_cons_self c cs)]
    exact congrArg (c :: ·)
      (passOver_of_none ids cs n (fun d hd => h d (List.mem_cons_of_mem c hd)))

theorem scannedQuantities_of_none :
    ∀ (cs : List Container), (∀ c ∈ cs, scanned c = none) → scannedQuantities cs = []
  | [], _ => rfl
  | c :: cs, h => by
    unfold scannedQuantities
    rw [List.filterMap_cons, h c (List.mem_cons_self c cs)]
    exact scannedQuantities_of_none cs (fun d hd => h d (List.mem_cons_of_mem c hd))

theorem recordsOver_of_none (ids : Nat → String) (cs : List Container) (n : Nat)
    (h : ∀ c ∈ cs, scanned c = none) : recordsOver ids n cs = [] := by
  apply List.eq_nil_of_length_eq_zero
  rw [length_recordsOver, scannedQuantities_of_none cs h]
  rfl

theorem scannedQuantities_of_some :
    ∀ (cs : List Container), (∀ c ∈ cs, scanned c ≠ none) →
      (scannedQuantities cs).length = cs.length
  | [], _ => rfl
  | c :: cs, h => by
    unfold scannedQuantities
    cases hc : scanned c with
    | none => exact absurd hc (h c (List.mem_cons_self c cs))
    | some q =>
      rw [List.filterMap_cons, hc]
      simp only [List.length_cons]
      exact congrArg (· + 1)
        (scannedQuantities_of_some cs (fun d hd => h d (List.mem_cons_of_mem c hd)))

/-! ## A container without a scanned quantity -/

theorem putAt_nil (i : Nat) (c : Container) : putAt [] i c = [c] := by
  simp [putAt]

theorem putAt_cons_zero (a : Container) (cs : List Container) (c : Container) :
    putAt (a :: cs) 0 c = c :: a :: cs := by
  simp [putAt]

theorem putAt_cons_succ (a : Container) (cs : List Container) (i : Nat) (c : Container) :
    putAt (a :: cs) (i + 1) c = a :: putAt cs i c := by
  simp [putAt]

theorem scannedQuantities_putAt (c : Container) (h : scanned c = none) :
    ∀ (cs : List Container) (i : Nat), scannedQuantities (putAt cs i c) = scannedQuantities cs
  | [], i => by rw [putAt_nil]; simp [scannedQuantities, h]
  | a :: cs, 0 => by rw [putAt_cons_zero]; simp [scannedQuantities, h]
  | a :: cs, i + 1 => by
    rw [putAt_cons_succ]
    have ih := scannedQuantities_putAt c h cs i
    unfold scannedQuantities at ih ⊢
    rw [List.filterMap_cons, List.filterMap_cons, ih]

theorem passOver_putAt (ids : Nat → String) (c : Container) (h : scanned c = none) :
    ∀ (cs : List Container) (i n : Nat),
      passOver ids n (putAt cs i c) = putAt (passOver ids n cs) i c
  | [], i, n => by simp [putAt_nil, passOver, h]
  | a :: cs, 0, n => by
    rw [putAt_cons_zero]
    conv_lhs => unfold passOver
    rw [h]
    cases hp : passOver ids n (a :: cs) with
    | nil => exact absurd (congrArg List.length hp) (by rw [length_passOver]; simp)
    | cons b bs => rw [putAt_cons_zero]
  | a :: cs, i + 1, n => by
    rw [putAt_cons_succ]
    unfold passOver
    cases ha : scanned a with
    | none =>
      simp only
      rw [putAt_cons_succ, passOver_putAt ids c h cs i n]
    | some q =>
      simp only
      rw [putAt_cons_succ, passOver_putAt ids c h cs i (n + 1)]

theorem recordsOver_putAt (ids : Nat → String) (c : Container) (h : scanned c = none) :
    ∀ (cs : List Container) (i n : Nat),
      recordsOver ids n (putAt cs i c) = recordsOver ids n cs
  | [], i, n => by simp [putAt_nil, recordsOver, h]
  | a :: cs, 0, n => by
    rw [putAt_cons_zero]
    conv_lhs => unfold recordsOver
    rw [h]
  | a :: cs, i + 1, n => by
    rw [putAt_cons_succ]
    unfold recordsOver
    cases ha : scanned a with
    | none =>
      simp only
      exact recordsOver_putAt ids c h cs i n
    | some q =>
      simp only
      rw [recordsOver_putAt ids c h cs i (n + 1)]

/-- The call of `Admit` commutes with putting in a container that has no scanned
quantity: the container is found unchanged at its place, and the records, the
other containers and the identifiers drawn are those of the Pod without it. -/
theorem Admit_withContainer (ids : Nat → String) (calls : Nat) (pod : Pod) (init : Bool)
    (i : Nat) (c : Container) (h : scanned c = none) :
    ∃ pod1 calls1,
      Admit ids calls (podRequest pod) = ⟨none, .pod pod1, calls1⟩ ∧
        Admit ids calls (podRequest (withContainer pod init i c)) =
          ⟨none, .pod (withContainer pod1 init i c), calls1⟩ := by
  refine ⟨_, _, Admit_podRequest ids calls pod, ?_⟩
  rw [Admit_podRequest]
  cases init with
  | true =>
    simp only [withContainer, if_true, scannedQuantities_putAt c h, passOver_putAt ids c h,
      recordsOver_putAt ids c h]
  | false =>
    simp only [withContainer, Bool.false_eq_true, if_false, scannedQuantities_putAt c h,
      passOver_putAt ids c h, recordsOver_putAt ids c h]

/-! ## Consequences for single containers -/

theorem scanned_of_requests {c : Container} {reqs : ResourceMap}
    (h : c.Resources.Requests = some reqs) : scanned c = reqs.lookup gpu := by
  unfold scanned
  rw [h]

theorem scanned_of_nil_requests {c : Container} (h : c.Resources.Requests = none) :
    scanned c = c.Resources.Limits.get gpu := by
  unfold scanned
  rw [h]

theorem scanned_of_absent {c : Container} (h1 : c.Resources.Requests.get gpu = none)
    (h2 : c.Resources.Limits.get gpu = none) : scanned c = none := by
  cases h : c.Resources.Requests with
  | none => rw [scanned_of_nil_requests h]; exact h2
  | some reqs =>
    rw [scanned_of_requests h]
    rw [h] at h1
    exact h1

theorem requests_get_of_scanned_none {c : Container} (h : scanned c = none) :
    c.Resources.Requests.get gpu = none := by
  cases hr : c.Resources.Requests with
  | none => rfl
  | some reqs =>
    rw [scanned_of_requests hr] at h
    exact h

theorem rewritten_requests_get (id : String) (c : Container) :
    (rewritten id c).Resources.Requests.get gpu = none := by
  unfold rewritten
  simp only
  rw [deleteRes_requests]
  exact ResourceList.get_delete_self _ _

theorem rewritten_limits_get (id : String) (c : Container) :
    (rewritten id c).Resources.Limits.get gpu = none := by
  unfold rewritten
  simp only
  rw [deleteRes_limits]
  exact ResourceList.get_delete_self _ _

theorem rewritten_get_ne (id : String) (c : Container) {k : ResourceName} (h : k ≠ gpu) :
    (rewritten id c).Resources.Requests.get k = c.Resources.Requests.get k ∧
      (rewritten id c).Resources.Limits.get k = c.Resources.Limits.get k := by
  unfold rewritten
  simp only
  rw [deleteRes_requests, deleteRes_limits]
  exact ⟨ResourceList.get_delete_ne _ h, ResourceList.get_delete_ne _ h⟩

/-- A property that every step of the loops establishes holds of every
container of the Pod `Admit` leaves. -/
theorem Admit_each (ids : Nat → String) (calls : Nat) (pod : Pod)
    (R : Container → Container → Prop) (hR : ∀ c c1, Rewrites ids c c1 → R c c1) :
    ∃ pod1, (Admit ids calls (podRequest pod)).object = .pod pod1 ∧
      (Admit ids calls (podRequest pod)).err = none ∧ EachContainer R pod pod1 := by
  refine ⟨_, congrArg Outcome.object (Admit_podRequest ids calls pod),
    congrArg Outcome.err (Admit_podRequest ids calls pod), ?_, ?_⟩
  · exact (passOver_rewrites ids _ _).imp hR
  · exact (passOver_rewrites ids _ _).imp hR

theorem sampleIds_injective : Function.Injective sampleIds := by
  intro a b h
  have h2 : (sampleIds a).length = (sampleIds b).length := congrArg String.length h
  simpa [sampleIds, String.length] using h2

/-! ## The claims -/

/-- C1, as stated, fails: a Pod whose one container has requests `cpu: 2`
(set, without `nvidia.com/gpu`) and no limits comes back from `Admit` as it
went in. The container stored in the Pod still has a nil limits map, so its
limits hold no `cpu` entry while its requests hold `cpu: 2`. -/
theorem C1_defaulting_counterexample :
    cpuOnly.Resources.Requests = single "cpu" 2 ∧
      cpuOnly.Resources.Requests.get gpu = none ∧
      Admit sampleIds 0 (podRequest (podOf [cpuOnly])) = ⟨none, .pod (podOf [cpuOnly]), 0⟩ ∧
      cpuOnly.Resources.Limits = none ∧
      cpuOnly.Resources.Limits.get "cpu" = none ∧
      cpuOnly.Resources.Requests.get "cpu" = some 2 := by
  decide

/-- C1, amended: for every Pod and every container of it (init or regular)
whose requests mapping is set and does not contain `nvidia.com/gpu`, the copy
`FillRequests` returns, which is what `Admit` scans, has a limits mapping with
the keys and quantities of the requests; `Admit` does not store that copy, and
the container in the Pod after `Admit` is the container as it was, limits
included. -/
theorem C1_defaulting_not_stored (ids : Nat → String) (calls : Nat) (pod : Pod) :
    ∃ pod1, (Admit ids calls (podRequest pod)).object = .pod pod1 ∧
      EachContainer
        (fun c c1 =>
          ∀ reqs, c.Resources.Requests = some reqs → reqs.lookup gpu = none →
            c1 = c ∧
              ∃ lims, (FillRequests c).Resources.Limits = some lims ∧
                ∀ k, lims.lookup k = reqs.lookup k)
        pod pod1 := by
  obtain ⟨pod1, hobj, _, heach⟩ := Admit_each ids calls pod
    (fun c c1 =>
      ∀ reqs, c.Resources.Requests = some reqs → reqs.lookup gpu = none →
        c1 = c ∧
          ∃ lims, (FillRequests c).Resources.Limits = some lims ∧
            ∀ k, lims.lookup k = reqs.lookup k)
    (by
      intro c c1 hrw reqs hreq hgpu
      have hs : scanned c = none := by rw [scanned_of_requests hreq]; exact hgpu
      constructor
      · rcases hrw with ⟨_, h⟩ | ⟨q, k, h, _⟩
        · exact h
        · rw [hs] at h; cases h
      · refine ⟨reqs.entries.foldl (fun m e => m.insert e.1 e.2) ResourceMap.empty, ?_, ?_⟩
        · unfold FillRequests
          rw [hreq]
        · exact fun k => ResourceMap.lookup_copy reqs k)
  exact ⟨pod1, hobj, heach⟩

/-- C2, the code at the failing input: a Pod whose one container has requests
`cpu: 1` and limits `nvidia.com/gpu: 1`, both specified. `FillRequests`
returns a copy whose limits are the requests `cpu: 1` instead of the limits
of the input, so the scan of `Admit` meets no `nvidia.com/gpu` entry: the Pod
comes back as it went in, no record is appended, no identifier is drawn, and
the container's limits still hold `nvidia.com/gpu: 1`. -/
theorem C2_gpu_limit_kept :
    gpuLimitCpuRequest.Resources.Requests = single "cpu" 1 ∧
      gpuLimitCpuRequest.Resources.Limits = single gpu 1 ∧
      (FillRequests gpuLimitCpuRequest).Resources.Limits = single "cpu" 1 ∧
      (FillRequests gpuLimitCpuRequest).Resources.Limits.get gpu = none ∧
      Admit sampleIds 0 (podRequest (podOf [gpuLimitCpuRequest])) =
        ⟨none, .pod (podOf [gpuLimitCpuRequest]), 0⟩ ∧
      gpuLimitCpuRequest.Resources.Limits.get gpu = some 1 := by
  decide

/-- Where `nvidia.com/gpu` can be left after `Admit`: never in a requests
mapping, and in a limits mapping only for a container that had both mappings
specified before `Admit`, the requests without `nvidia.com/gpu` and the limits
with that same entry. These are the containers on which `FillRequests`
replaces specified limits by the requests. -/
theorem gpu_left_only_when_both_specified (ids : Nat → String) (calls : Nat) (pod : Pod) :
    ∃ pod1, (Admit ids calls (podRequest pod)).object = .pod pod1 ∧
      EachContainer
        (fun c c1 =>
          c1.Resources.Requests.get gpu = none ∧
            ∀ q, c1.Resources.Limits.get gpu = some q →
              c.Resources.Requests ≠ none ∧ c.Resources.Requests.get gpu = none ∧
                c.Resources.Limits.get gpu = some q)
        pod pod1 := by
  obtain ⟨pod1, hobj, _, heach⟩ := Admit_each ids calls pod
    (fun c c1 =>
      c1.Resources.Requests.get gpu = none ∧
        ∀ q, c1.Resources.Limits.get gpu = some q →
          c.Resources.Requests ≠ none ∧ c.Resources.Requests.get gpu = none ∧
            c.Resources.Limits.get gpu = some q)
    (by
      intro c c1 hrw
      rcases hrw with ⟨hs, h⟩ | ⟨q, k, _, h⟩
      · subst h
        refine ⟨requests_get_of_scanned_none hs, fun q hq => ⟨?_, ?_, hq⟩⟩
        · intro hnil
          rw [scanned_of_nil_requests hnil, hq] at hs
          cases hs
        · exact requests_get_of_scanned_none hs
      · subst h
        refine ⟨rewritten_requests_get _ _, fun q hq => ?_⟩
        rw [rewritten_limits_get] at hq
        cases hq)
  exact ⟨pod1, hobj, heach⟩

/-- C3, as stated, fails for an unset (nil) requests mapping: a container
with nil requests and limits `nvidia.com/gpu: 1` is extracted. `Admit` removes
the limits entry, appends one record and replaces the container's references
`["old"]` by the new identifier. -/
theorem C3_nil_requests_extracted_counterexample :
    gpuLimitOnly.Resources.Requests = none ∧
      gpuLimitOnly.Resources.Limits.get gpu = some 1 ∧
      gpuLimitOnly.ExtendedResourceRequests = ["old"] ∧
      Admit sampleIds 0 (podRequest (podOf [gpuLimitOnly])) =
        ⟨none,
         .pod
          { Spec :=
              { InitContainers := []
                Containers :=
                  [{ Name := "app"
                     Resources := { Limits := some ResourceMap.empty, Requests := none }
                     ExtendedResourceRequests := ["u"] }]
                ExtendedResources := [recordFor "u" 1] } },
         1⟩ := by
  decide

/-- C3, amended: for every Pod and every container whose requests mapping is
set but empty and whose limits mapping contains `nvidia.com/gpu`, `Admit`
leaves the container as it is (that limits entry and its
ExtendedResourceRequests included) and appends no record for it: `Admit` on
the Pod with the container, at any place among the init or the regular
containers, gives the result of `Admit` on the Pod without it, with the
unchanged container at that place, the same records and the same identifiers
drawn. -/
theorem C3_empty_requests_skipped (ids : Nat → String) (calls : Nat) (pod : Pod)
    (init : Bool) (i : Nat) (c : Container) (q : Quantity)
    (hreq : c.Resources.Requests = some ResourceMap.empty)
    (hlim : c.Resources.Limits.get gpu = some q) :
    c.Resources.Limits.get gpu = some q ∧
      ∃ pod1 calls1,
        Admit ids calls (podRequest pod) = ⟨none, .pod pod1, calls1⟩ ∧
          Admit ids calls (podRequest (withContainer pod init i c)) =
            ⟨none, .pod (withContainer pod1 init i c), calls1⟩ :=
  ⟨hlim, Admit_withContainer ids calls pod init i c (by rw [scanned_of_requests hreq]; rfl)⟩

/-- C3, witness: the amended claim at a Pod with one GPU container, the
container with empty requests put in after it. -/
theorem C3_empty_requests_skipped_witness :
    gpuLimitEmptyRequests.Resources.Requests = some ResourceMap.empty ∧
      gpuLimitEmptyRequests.Resources.Limits.get gpu = some 1 ∧
      ∃ pod1 calls1,
        Admit sampleIds 0 (podRequest (podOf [gpuRequest "a" 2])) =
            ⟨none, .pod pod1, calls1⟩ ∧
          Admit sampleIds 0
              (podRequest (withContainer (podOf [gpuRequest "a" 2]) false 1
                gpuLimitEmptyRequests)) =
            ⟨none, .pod (withContainer pod1 false 1 gpuLimitEmptyRequests), calls1⟩ :=
  ⟨rfl, by decide,
    (C3_empty_requests_skipped sampleIds 0 (podOf [gpuRequest "a" 2]) false 1
      gpuLimitEmptyRequests 1 rfl (by decide)).2⟩

/-- C4: the records `Admit` appends follow the records the Pod had. The
`j`-th of them has as Name the `j`-th identifier drawn from the generator, and
its requests and its limits each hold exactly the one entry
`nvidia.com/gpu: q`, where `q` is the quantity scanned for the `j`-th
container that has one: its requests entry when its requests mapping is set,
its limits entry otherwise. -/
theorem C4_record_content (ids : Nat → String) (calls : Nat) (pod : Pod) :
    ∃ pod1 appended, (Admit ids calls (podRequest pod)).object = .pod pod1 ∧
      pod1.Spec.ExtendedResources = pod.Spec.ExtendedResources ++ appended ∧
      appended.length = (scannedQuantities (allContainers pod)).length ∧
      ∀ j r, appended[j]? = some r →
        r.Name = ids (calls + j) ∧
          ∃ q, (scannedQuantities (allContainers pod))[j]? = some q ∧
            r.Resources.Requests.range = [(gpu, q)] ∧
            r.Resources.Limits.range = [(gpu, q)] := by
  refine ⟨_, recordsOver ids calls (allContainers pod),
    congrArg Outcome.object (Admit_podRequest ids calls pod), ?_, ?_, ?_⟩
  · simp only [allContainers, recordsOver_append]
  · exact length_recordsOver ids _ _
  · intro j r hr
    rw [getElem?_recordsOver] at hr
    obtain ⟨q, hq, hrq⟩ := Option.map_eq_some'.1 hr
    subst hrq
    exact ⟨rfl, q, hq, rfl, rfl⟩

/-- C4, instance: requests `nvidia.com/gpu: 1` yield one record with requests
and limits `nvidia.com/gpu: 1` under the first identifier drawn. -/
theorem C4_record_content_example :
    (Admit sampleIds 0 (podRequest (podOf [gpuRequest "a" 1]))).object =
      .pod
        { Spec :=
            { InitContainers := []
              Containers :=
                [{ Name := "a"
                   Resources := { Limits := none, Requests := some ResourceMap.empty }
                   ExtendedResourceRequests := [sampleIds 0] }]
              ExtendedResources :=
                [{ Name := sampleIds 0
                   Resources := { Limits := single gpu 1, Requests := single gpu 1 } }] } } := by
  decide

/-- C5: the containers for which `Admit` appends a record (those with a
scanned quantity), taken in processing order, correspond one to one and in
order to the appended records, and after `Admit` the reference sequence of
each is exactly the one-element sequence holding its record's Name, whatever
it held before. -/
theorem C5_reference_replacement (ids : Nat → String) (calls : Nat) (pod : Pod) :
    ∃ pod1 appended, (Admit ids calls (podRequest pod)).object = .pod pod1 ∧
      pod1.Spec.ExtendedResources = pod.Spec.ExtendedResources ++ appended ∧
      pod1.Spec.InitContainers.length = pod.Spec.InitContainers.length ∧
      pod1.Spec.Containers.length = pod.Spec.Containers.length ∧
      (matchedPairs (allContainers pod) (allContainers pod1)).map
          (fun p => p.2.ExtendedResourceRequests) =
        appended.map (fun r => [r.Name]) := by
  refine ⟨_, recordsOver ids calls (allContainers pod),
    congrArg Outcome.object (Admit_podRequest ids calls pod), ?_, ?_, ?_, ?_⟩
  · simp only [allContainers, recordsOver_append]
  · exact length_passOver ids _ _
  · exact length_passOver ids _ _
  · have h := congrArg (List.map Prod.snd)
      (matchedPairs_passOver ids (allContainers pod) calls)
    simp only [List.map_map] at h
    simp only [allContainers, passOver_append] at h ⊢
    exact h

/-- C6: for every container for which `Admit` appends a record (a container
with a scanned quantity), after `Admit` neither its requests mapping nor its
limits mapping contains `nvidia.com/gpu`. And `deleteRes(resources, k)`
leaves `k` in neither mapping, keeps every other key with its quantity, and
leaves a mapping that lacks `k` as it is. -/
theorem C6_removal_on_extraction (ids : Nat → String) (calls : Nat) (pod : Pod) :
    (∃ pod1, (Admit ids calls (podRequest pod)).object = .pod pod1 ∧
      EachContainer
        (fun c c1 =>
          scanned c ≠ none →
            c1.Resources.Requests.get gpu = none ∧ c1.Resources.Limits.get gpu = none)
        pod pod1) ∧
      ∀ (resources : ResourceRequirements) (k : ResourceName),
        (deleteRes resources k).Requests.get k = none ∧
          (deleteRes resources k).Limits.get k = none ∧
          (∀ k1, k1 ≠ k →
            (deleteRes resources k).Requests.get k1 = resources.Requests.get k1 ∧
              (deleteRes resources k).Limits.get k1 = resources.Limits.get k1) ∧
          (resources.Requests.get k = none →
            (deleteRes resources k).Requests = resources.Requests) ∧
          (resources.Limits.get k = none →
            (deleteRes resources k).Limits = resources.Limits) := by
  constructor
  · obtain ⟨pod1, hobj, _, heach⟩ := Admit_each ids calls pod
      (fun c c1 =>
        scanned c ≠ none →
          c1.Resources.Requests.get gpu = none ∧ c1.Resources.Limits.get gpu = none)
      (by
        intro c c1 hrw hs
        rcases hrw with ⟨hnone, _⟩ | ⟨q, k, _, h⟩
        · exact absurd hnone hs
        · subst h
          exact ⟨rewritten_requests_get _ _, rewritten_limits_get _ _⟩)
    exact ⟨pod1, hobj, heach⟩
  · intro resources k
    rw [deleteRes_requests, deleteRes_limits]
    refine ⟨ResourceList.get_delete_self _ _, ResourceList.get_delete_self _ _, ?_, ?_, ?_⟩
    · exact fun k1 h => ⟨ResourceList.get_delete_ne _ h, ResourceList.get_delete_ne _ h⟩
    · exact ResourceList.delete_of_get_none _ _
    · exact ResourceList.delete_of_get_none _ _

/-- C7: for every Pod, every container and every resource kind `k` other than
`nvidia.com/gpu`, the entry of `k` (its presence and its quantity) in the
container's requests mapping and in its limits mapping is the same after
`Admit` as before. In particular a container with limits
`cpu: 4, memory: 8Gi` and no `nvidia.com/gpu` entry gets no record and no
change: `Admit` on a Pod with it gives the result of `Admit` on the Pod
without it, with the container unchanged at its place. -/
theorem C7_non_interception (ids : Nat → String) (calls : Nat) (pod : Pod) :
    (∃ pod1, (Admit ids calls (podRequest pod)).object = .pod pod1 ∧
      EachContainer
        (fun c c1 =>
          ∀ k, k ≠ gpu →
            c1.Resources.Requests.get k = c.Resources.Requests.get k ∧
              c1.Resources.Limits.get k = c.Resources.Limits.get k)
        pod pod1) ∧
      ∀ (c : Container) (init : Bool) (i : Nat),
        c.Resources.Limits = cpuMemoryLimits.Resources.Limits →
          c.Resources.Requests.get gpu = none →
            ∃ pod1 calls1,
              Admit ids calls (podRequest pod) = ⟨none, .pod pod1, calls1⟩ ∧
                Admit ids calls (podRequest (withContainer pod init i c)) =
                  ⟨none, .pod (withContainer pod1 init i c), calls1⟩ := by
  constructor
  · obtain ⟨pod1, hobj, _, heach⟩ := Admit_each ids calls pod
      (fun c c1 =>
        ∀ k, k ≠ gpu →
          c1.Resources.Requests.get k = c.Resources.Requests.get k ∧
            c1.Resources.Limits.get k = c.Resources.Limits.get k)
      (by
        intro c c1 hrw k hk
        rcases hrw with ⟨_, h⟩ | ⟨q, j, _, h⟩
        · subst h
          exact ⟨rfl, rfl⟩
        · subst h
          exact rewritten_get_ne _ _ hk)
    exact ⟨pod1, hobj, heach⟩
  · intro c init i hlim hreq
    refine Admit_withContainer ids calls pod init i c (scanned_of_absent hreq ?_)
    rw [hlim]
    decide

/-- C7, instance: the container with limits `cpu: 4, memory: 8Gi` put in
front of a GPU container. -/
theorem C7_non_interception_witness :
    ∃ pod1 calls1,
      Admit sampleIds 0 (podRequest (podOf [gpuRequest "a" 2])) = ⟨none, .pod pod1, calls1⟩ ∧
        Admit sampleIds 0
            (podRequest (withContainer (podOf [gpuRequest "a" 2]) false 0 cpuMemoryLimits)) =
          ⟨none, .pod (withContainer pod1 false 0 cpuMemoryLimits), calls1⟩ :=
  (C7_non_interception sampleIds 0 (podOf [gpuRequest "a" 2])).2 cpuMemoryLimits false 0 rfl
    (by decide)

/-- C8: for every Pod in which no container (init or regular) has
`nvidia.com/gpu` in its requests or in its limits, a Pod without containers
included, `Admit` returns no error and leaves the Pod identical, and draws no
identifier. -/
theorem C8_no_match_identity (ids : Nat → String) (calls : Nat) (pod : Pod)
    (h : ∀ c ∈ allContainers pod,
      c.Resources.Requests.get gpu = none ∧ c.Resources.Limits.get gpu = none) :
    Admit ids calls (podRequest pod) = ⟨none, .pod pod, calls⟩ := by
  have hinit : ∀ c ∈ pod.Spec.InitContainers, scanned c = none := fun c hc =>
    scanned_of_absent (h c (List.mem_append_left _ hc)).1 (h c (List.mem_append_left _ hc)).2
  have hreg : ∀ c ∈ pod.Spec.Containers, scanned c = none := fun c hc =>
    scanned_of_absent (h c (List.mem_append_right _ hc)).1 (h c (List.mem_append_right _ hc)).2
  rw [Admit_podRequest, passOver_of_none ids _ _ hinit, passOver_of_none ids _ _ hreg,
    recordsOver_of_none ids _ _ hinit, recordsOver_of_none ids _ _ hreg,
    scannedQuantities_of_none _ hinit, scannedQuantities_of_none _ hreg]
  simp

/-- C8, witness: a Pod with two containers and a prior record, none of the
containers holding `nvidia.com/gpu`. -/
theorem C8_no_match_identity_witness :
    (∀ c ∈ allContainers (podOf [cpuOnly, cpuMemoryLimits]),
        c.Resources.Requests.get gpu = none ∧ c.Resources.Limits.get gpu = none) ∧
      Admit sampleIds 0 (podRequest (podOf [cpuOnly, cpuMemoryLimits])) =
        ⟨none, .pod (podOf [cpuOnly, cpuMemoryLimits]), 0⟩ :=
  ⟨by decide, C8_no_match_identity sampleIds 0 (podOf [cpuOnly, cpuMemoryLimits]) (by decide)⟩

/-- C8, instance: a Pod with zero containers. -/
theorem C8_no_containers (ids : Nat → String) (calls : Nat)
    (records : List PodExtendedResource) :
    Admit ids calls (podRequest ⟨⟨[], [], records⟩⟩) = ⟨none, .pod ⟨⟨[], [], records⟩⟩, calls⟩ := by
  rw [Admit_podRequest]
  simp [passOver, recordsOver, scannedQuantities]

/-- C9: the records `Admit` appends stand in processing order after the
records the Pod had: first the records of the init containers, then those of
the regular containers. Within each group the containers with a scanned
quantity, in declaration order, correspond one to one and in order to the
group's records: the `k`-th such container holds after `Admit` the reference
sequence `[Name]` of the `k`-th record, and that record holds the quantity
scanned for it. -/
theorem C9_ordering (ids : Nat → String) (calls : Nat) (pod : Pod) :
    ∃ pod1 initRecords regularRecords,
      (Admit ids calls (podRequest pod)).object = .pod pod1 ∧
        pod1.Spec.ExtendedResources =
          pod.Spec.ExtendedResources ++ initRecords ++ regularRecords ∧
        pod1.Spec.InitContainers.length = pod.Spec.InitContainers.length ∧
        pod1.Spec.Containers.length = pod.Spec.Containers.length ∧
        (matchedPairs pod.Spec.InitContainers pod1.Spec.InitContainers).map
            (fun p => (scanned p.1, p.2.ExtendedResourceRequests)) =
          initRecords.map (fun r => (r.Resources.Limits.get gpu, [r.Name])) ∧
        (matchedPairs pod.Spec.Containers pod1.Spec.Containers).map
            (fun p => (scanned p.1, p.2.ExtendedResourceRequests)) =
          regularRecords.map (fun r => (r.Resources.Limits.get gpu, [r.Name])) ∧
        initRecords.map PodExtendedResource.Name =
          (List.range' calls initRecords.length).map ids ∧
        regularRecords.map PodExtendedResource.Name =
          (List.range' (calls + initRecords.length) regularRecords.length).map ids := by
  refine ⟨_, recordsOver ids calls pod.Spec.InitContainers,
    recordsOver ids (calls + (scannedQuantities pod.Spec.InitContainers).length)
      pod.Spec.Containers,
    congrArg Outcome.object (Admit_podRequest ids calls pod), ?_, ?_, ?_, ?_, ?_, ?_, ?_⟩
  · simp only [List.append_assoc]
  · exact length_passOver ids _ _
  · exact length_passOver ids _ _
  · exact matchedPairs_passOver ids _ _
  · exact matchedPairs_passOver ids _ _
  · rw [names_recordsOver, length_recordsOver]
  · rw [names_recordsOver, length_recordsOver, length_recordsOver]

/-- C9, instance: one init container and two of three regular containers ask
for GPUs; the init container's record comes first, then the regular ones in
declaration order, each referenced by its container. -/
theorem C9_ordering_example :
    Admit sampleIds 0 (podRequest mixedPod) =
      ⟨none,
       .pod
        { Spec :=
            { InitContainers := [rewritten "u" (gpuRequest "init" 1)]
              Containers :=
                [rewritten "uu" (gpuRequest "a" 2), cpuOnly, rewritten "uuu" (gpuRequest "b" 3)]
              ExtendedResources := [recordFor "u" 1, recordFor "uu" 2, recordFor "uuu" 3] } },
       3⟩ ∧
      (rewritten "uuu" (gpuRequest "b" 3)).ExtendedResourceRequests = ["uuu"] := by
  decide

/-- C10: assuming the identifier generator returns a distinct value on every
call, none of its values is the Name of a record already in the Pod, and the
Names of those records are pairwise distinct, the Names in the Pod's
ExtendedResources sequence are pairwise distinct after `Admit`. In particular
a Pod with no prior record and three containers, each with `nvidia.com/gpu`
in its requests, ends with exactly three records. -/
theorem C10_unique_names (ids : Nat → String) (calls : Nat) (pod : Pod)
    (hinj : Function.Injective ids)
    (hfresh : ∀ k, ids k ∉ pod.Spec.ExtendedResources.map PodExtendedResource.Name)
    (hprior : (pod.Spec.ExtendedResources.map PodExtendedResource.Name).Nodup) :
    ∃ pod1, (Admit ids calls (podRequest pod)).object = .pod pod1 ∧
      (pod1.Spec.ExtendedResources.map PodExtendedResource.Name).Nodup ∧
      (pod.Spec.ExtendedResources = [] → (allContainers pod).length = 3 →
        (∀ c ∈ allContainers pod, ∃ q, c.Resources.Requests.get gpu = some q) →
          pod1.Spec.ExtendedResources.length = 3) := by
  refine ⟨_, congrArg Outcome.object (Admit_podRequest ids calls pod), ?_, ?_⟩
  · simp only
    rw [← recordsOver_append, List.map_append, names_recordsOver, List.nodup_append]
    refine ⟨hprior, (List.nodup_range' _ _).map hinj, ?_⟩
    intro x hx hx2
    obtain ⟨k, _, hk⟩ := List.mem_map.1 hx2
    exact hfresh k (hk ▸ hx)
  · intro hnil hlen hall
    simp only
    rw [← recordsOver_append, hnil, List.nil_append, length_recordsOver]
    have hsome : ∀ c ∈ allContainers pod, scanned c ≠ none := by
      intro c hc
      obtain ⟨q, hq⟩ := hall c hc
      cases hr : c.Resources.Requests with
      | none => rw [hr] at hq; cases hq
      | some reqs =>
        rw [scanned_of_requests hr]
        rw [hr] at hq
        change reqs.lookup gpu = some q at hq
        rw [hq]
        exact Option.some_ne_none q
    have := scannedQuantities_of_some _ hsome
    unfold allContainers at this hlen
    rw [this, hlen]

/-- C10, witness: three containers with `nvidia.com/gpu` in their requests,
no prior record, and the generator `u`, `uu`, `uuu`, ...: three records with
pairwise distinct Names. -/
theorem C10_unique_names_witness :
    Function.Injective sampleIds ∧
      threeGpuPod.Spec.ExtendedResources = [] ∧
      (allContainers threeGpuPod).length = 3 ∧
      ∃ pod1, (Admit sampleIds 0 (podRequest threeGpuPod)).object = .pod pod1 ∧
        (pod1.Spec.ExtendedResources.map PodExtendedResource.Name).Nodup ∧
        pod1.Spec.ExtendedResources.length = 3 :=
  ⟨sampleIds_injective, rfl, rfl,
    match C10_unique_names sampleIds 0 threeGpuPod sampleIds_injective
      (fun _ h => by cases h) List.nodup_nil with
    | ⟨pod1, h1, h2, h3⟩ =>
      ⟨pod1, h1, h2, h3 rfl rfl (by
        intro c hc
        simp only [allContainers, threeGpuPod, List.cons_append, List.nil_append,
          List.mem_cons, List.mem_singleton] at hc
        rcases hc with h | h | h | h
        · exact ⟨1, by rw [h]; decide⟩
        · exact ⟨2, by rw [h]; decide⟩
        · exact ⟨4, by rw [h]; decide⟩
        · cases h)⟩⟩

/-! ## The filter, the second pass and the extraction condition -/

theorem length_eq_zero_iff (s : String) : s.length = 0 ↔ s = "" := by
  rcases s with ⟨data⟩
  constructor
  · intro h
    have hd : data = [] := List.length_eq_zero.1 h
    subst hd
    rfl
  · intro h
    rw [h]
    rfl

theorem filter_iff (attributes : Attributes) :
    (attributes.subresource.length ≠ 0 ∨ attributes.resource ≠ coreResource "pods") ↔
      (attributes.subresource ≠ "" ∨ attributes.resource ≠ coreResource "pods") := by
  rw [Ne, Ne, length_eq_zero_iff]

theorem Admit_declined (ids : Nat → String) (calls : Nat) (attributes : Attributes)
    (h : attributes.subresource ≠ "" ∨ attributes.resource ≠ coreResource "pods") :
    Admit ids calls attributes = ⟨none, attributes.object, calls⟩ := by
  unfold Admit
  rw [if_pos ((filter_iff attributes).2 h)]

theorem Admit_other (ids : Nat → String) (calls : Nat) (attributes : Attributes)
    (goType : String) (hsub : attributes.subresource = "")
    (hres : attributes.resource = coreResource "pods")
    (hobj : attributes.object = .other goType) :
    Admit ids calls attributes =
      ⟨some (.badRequest ("expected *core.Pod but got " ++ goType)), attributes.object, calls⟩ := by
  have hfilter : ¬ (attributes.subresource.length ≠ 0 ∨
      attributes.resource ≠ coreResource "pods") := by
    rw [filter_iff]
    exact fun h => h.elim (fun h1 => h1 hsub) (fun h2 => h2 hres)
  unfold Admit
  rw [if_neg hfilter]
  rw [hobj]

theorem Admit_pod_err (ids : Nat → String) (calls : Nat) (attributes : Attributes)
    (pod : Pod) (hobj : attributes.object = .pod pod) :
    (Admit ids calls attributes).err = none := by
  unfold Admit
  by_cases hfilter : attributes.subresource.length ≠ 0 ∨
      attributes.resource ≠ coreResource "pods"
  · rw [if_pos hfilter]
  · rw [if_neg hfilter, hobj]

theorem scanned_rewritten (id : String) (c : Container) : scanned (rewritten id c) = none :=
  scanned_of_absent (rewritten_requests_get id c) (rewritten_limits_get id c)

theorem scanned_of_rewrites {ids : Nat → String} {c c1 : Container}
    (h : Rewrites ids c c1) : scanned c1 = none := by
  rcases h with ⟨hs, h⟩ | ⟨q, k, _, h⟩
  · rw [h]; exact hs
  · rw [h]; exact scanned_rewritten _ _

theorem scanned_passOver (ids : Nat → String) (cs : List Container) (n : Nat) :
    ∀ c1 ∈ passOver ids n cs, scanned c1 = none := by
  have h := passOver_rewrites ids cs n
  generalize passOver ids n cs = out at h
  induction h with
  | nil => intro c1 hc; cases hc
  | cons hrw _ ih =>
    intro c1 hc
    rcases List.mem_cons.1 hc with h1 | h1
    · rw [h1]; exact scanned_of_rewrites hrw
    · exact ih c1 h1

/-- A Pod none of whose containers has a scanned quantity goes through
`Admit` unchanged. -/
theorem Admit_of_scanned_none (ids : Nat → String) (calls : Nat) (pod : Pod)
    (hinit : ∀ c ∈ pod.Spec.InitContainers, scanned c = none)
    (hreg : ∀ c ∈ pod.Spec.Containers, scanned c = none) :
    Admit ids calls (podRequest pod) = ⟨none, .pod pod, calls⟩ := by
  rw [Admit_podRequest, passOver_of_none ids _ _ hinit, passOver_of_none ids _ _ hreg,
    recordsOver_of_none ids _ _ hinit, recordsOver_of_none ids _ _ hreg,
    scannedQuantities_of_none _ hinit, scannedQuantities_of_none _ hreg]
  simp

theorem isSome_scanned (c : Container) : (scanned c).isSome = extractionCondition c := by
  unfold extractionCondition
  cases h : c.Resources.Requests with
  | none =>
    rw [scanned_of_nil_requests h]
    simp [ResourceList.get]
  | some reqs =>
    rw [scanned_of_requests h]
    simp [ResourceList.get]

theorem scanned_eq_none_iff (c : Container) :
    scanned c = none ↔ extractionCondition c = false := by
  rw [← isSome_scanned]
  cases scanned c <;> simp

theorem length_scannedQuantities :
    ∀ (cs : List Container),
      (scannedQuantities cs).length = (cs.filter extractionCondition).length
  | [] => rfl
  | c :: cs => by
    cases h : scanned c with
    | none =>
      rw [scannedQuantities_cons_none _ h,
        List.filter_cons_of_neg (by rw [(scanned_eq_none_iff c).1 h]; simp)]
      exact length_scannedQuantities cs
    | some q =>
      have hc : extractionCondition c = true := by rw [← isSome_scanned, h]; rfl
      rw [scannedQuantities_cons_some _ h, List.filter_cons_of_pos hc]
      simp only [List.length_cons]
      exact congrArg (· + 1) (length_scannedQuantities cs)

/-- C11: for every admission request whose subresource is non-empty or whose
resource is not the core `pods` resource, `Admit` returns nil and leaves the
object as it is, whatever the object is, and draws no identifier. -/
theorem C11_filtering (ids : Nat → String) (calls : Nat) (attributes : Attributes)
    (h : attributes.subresource ≠ "" ∨ attributes.resource ≠ coreResource "pods") :
    Admit ids calls attributes = ⟨none, attributes.object, calls⟩ :=
  Admit_declined ids calls attributes h

/-- C11, witness: a request for the `status` subresource of a Pod whose
container requests `nvidia.com/gpu: 1`; the Pod is not rewritten. -/
theorem C11_filtering_witness :
    statusRequest.subresource ≠ "" ∧
      (podOf [gpuRequest "a" 1]).Spec.Containers.map scanned = [some 1] ∧
      Admit sampleIds 0 statusRequest = ⟨none, .pod (podOf [gpuRequest "a" 1]), 0⟩ :=
  ⟨by decide, by decide, C11_filtering sampleIds 0 statusRequest (Or.inl (by decide))⟩

/-- C12: `Admit` returns an error if and only if the subresource is empty,
the resource is the core `pods` resource and the object is not a Pod; the
error is then a bad-request failure and the object is left as it is. For every
request whose object is a Pod, `Admit` returns no error. -/
theorem C12_error_iff (ids : Nat → String) (calls : Nat) (attributes : Attributes) :
    ((Admit ids calls attributes).err ≠ none ↔
        attributes.subresource = "" ∧ attributes.resource = coreResource "pods" ∧
          ∃ goType, attributes.object = .other goType) ∧
      (∀ goType, attributes.subresource = "" → attributes.resource = coreResource "pods" →
        attributes.object = .other goType →
          Admit ids calls attributes =
            ⟨some (.badRequest ("expected *core.Pod but got " ++ goType)),
             attributes.object, calls⟩) ∧
      (∀ pod, attributes.object = .pod pod → (Admit ids calls attributes).err = none) := by
  refine ⟨⟨?_, ?_⟩, ?_, ?_⟩
  · intro herr
    by_cases hfilter : attributes.subresource ≠ "" ∨ attributes.resource ≠ coreResource "pods"
    · rw [Admit_declined ids calls attributes hfilter] at herr
      exact absurd rfl herr
    · rw [not_or, not_not, not_not] at hfilter
      refine ⟨hfilter.1, hfilter.2, ?_⟩
      cases hobj : attributes.object with
      | pod pod => exact absurd (Admit_pod_err ids calls attributes pod hobj) herr
      | other goType => exact ⟨goType, rfl⟩
  · rintro ⟨hsub, hres, goType, hobj⟩
    rw [Admit_other ids calls attributes goType hsub hres hobj]
    exact Option.some_ne_none _
  · exact fun goType hsub hres hobj => Admit_other ids calls attributes goType hsub hres hobj
  · exact fun pod hobj => Admit_pod_err ids calls attributes pod hobj

/-- C12, instance: a request for the core `pods` resource with an object of
another type is a bad request, and the object is left as it is. -/
theorem C12_error_iff_witness :
    Admit sampleIds 0 mistypedRequest =
      ⟨some (.badRequest "expected *core.Pod but got *core.Service"),
       .other "*core.Service", 0⟩ :=
  (C12_error_iff sampleIds 0 mistypedRequest).2.1 "*core.Service" rfl rfl rfl

/-- C13: for every container whose requests mapping is set (non-nil),
`FillRequests` returns a container whose limits mapping is set and has exactly
the keys and quantities of the input's requests, whatever limits the input
had, with the requests and every other field those of the input; for every
container whose requests mapping is unset (nil), `FillRequests` returns the
container unchanged. -/
theorem C13_FillRequests_result (c : Container) :
    (∀ reqs, c.Resources.Requests = some reqs →
        ∃ lims, (FillRequests c).Resources.Limits = some lims ∧
          (∀ k, lims.lookup k = reqs.lookup k) ∧
          (∀ k v, (k, v) ∈ lims.entries ↔ (k, v) ∈ reqs.entries) ∧
          (FillRequests c).Resources.Requests = c.Resources.Requests ∧
          (FillRequests c).Name = c.Name ∧
          (FillRequests c).ExtendedResourceRequests = c.ExtendedResourceRequests) ∧
      (c.Resources.Requests = none → FillRequests c = c) := by
  constructor
  · intro reqs hreq
    refine ⟨reqs.entries.foldl (fun m e => m.insert e.1 e.2) ResourceMap.empty, ?_,
      fun k => ResourceMap.lookup_copy reqs k, ?_, ?_, ?_, ?_⟩
    · unfold FillRequests
      rw [hreq]
    · intro k v
      rw [← ResourceMap.lookup_eq_some_iff, ← ResourceMap.lookup_eq_some_iff,
        ResourceMap.lookup_copy]
    · unfold FillRequests
      rw [hreq]
      exact hreq
    · unfold FillRequests
      rw [hreq]
    · unfold FillRequests
      rw [hreq]
  · intro hnil
    unfold FillRequests
    rw [hnil]

/-- C13, instance: requests `cpu: 1` overwrite limits `cpu: 2` in the
returned copy, and a container with nil requests is returned as it is. -/
theorem C13_FillRequests_result_witness :
    (∃ lims, (FillRequests cpuRequestAndLimit).Resources.Limits = some lims ∧
        (∀ k, lims.lookup k = (ResourceMap.empty.insert "cpu" 1).lookup k)) ∧
      FillRequests gpuLimitOnly = gpuLimitOnly :=
  ⟨match (C13_FillRequests_result cpuRequestAndLimit).1 (ResourceMap.empty.insert "cpu" 1) rfl with
    | ⟨lims, h1, h2, _⟩ => ⟨lims, h1, h2⟩,
   (C13_FillRequests_result gpuLimitOnly).2 rfl⟩

/-- C14, the code at the failing input: for a container with requests
`cpu: 1` and limits `cpu: 2`, both specified, `FillRequests` returns limits
`cpu: 1`, not the limits of the input; and in `Admit` a container with
requests `nvidia.com/gpu: 1` and limits `nvidia.com/gpu: 2` yields a record
for the quantity 1. -/
theorem C14_limits_overwritten :
    cpuRequestAndLimit.Resources.Requests = single "cpu" 1 ∧
      cpuRequestAndLimit.Resources.Limits = single "cpu" 2 ∧
      (FillRequests cpuRequestAndLimit).Resources.Limits = single "cpu" 1 ∧
      (FillRequests cpuRequestAndLimit).Resources.Limits ≠
        cpuRequestAndLimit.Resources.Limits ∧
      (Admit sampleIds 0
          (podRequest (podOf
            [{ Name := "app"
               Resources := { Limits := single gpu 2, Requests := single gpu 1 }
               ExtendedResourceRequests := [] }]))).object =
        .pod
          { Spec :=
              { InitContainers := []
                Containers :=
                  [{ Name := "app"
                     Resources :=
                      { Limits := some ResourceMap.empty, Requests := some ResourceMap.empty }
                     ExtendedResourceRequests := ["u"] }]
                ExtendedResources := [recordFor "u" 1] } } := by
  decide

/-- C15, the code at the failing input: for a container with nil requests and
limits `nvidia.com/gpu: 1`, `FillRequests` returns the container as it is; the
requests of the result are still nil, not the limits. -/
theorem C15_requests_not_set :
    gpuLimitOnly.Resources.Requests = none ∧
      gpuLimitOnly.Resources.Limits = single gpu 1 ∧
      FillRequests gpuLimitOnly = gpuLimitOnly ∧
      (FillRequests gpuLimitOnly).Resources.Requests = none ∧
      (FillRequests gpuLimitOnly).Resources.Requests ≠
        (FillRequests gpuLimitOnly).Resources.Limits := by
  decide

/-- C16: an iteration of a container loop of `Admit` appends exactly one
record, drawing one identifier, when the container meets the extraction
condition (its requests contain `nvidia.com/gpu`, or they are nil and its
limits contain it), and otherwise changes nothing. So the number of records
`Admit` appends is the number of init and regular containers that meet the
condition. A container whose requests are set without `nvidia.com/gpu` does
not meet it, whatever its limits, and `Admit` passes it by. -/
theorem C16_extraction_condition (ids : Nat → String) (calls : Nat) (pod : Pod) :
    (∀ (c : Container) (ers : List PodExtendedResource) (n : Nat),
        (extractionCondition c = true →
          ∃ r, (admitContainer ids c ers n).extendedResources = ers ++ [r] ∧
            (admitContainer ids c ers n).calls = n + 1) ∧
        (extractionCondition c = false → admitContainer ids c ers n = ⟨c, ers, n⟩)) ∧
      (∃ pod1 appended, (Admit ids calls (podRequest pod)).object = .pod pod1 ∧
        pod1.Spec.ExtendedResources = pod.Spec.ExtendedResources ++ appended ∧
        appended.length = ((allContainers pod).filter extractionCondition).length ∧
        (Admit ids calls (podRequest pod)).calls = calls + appended.length) ∧
      ∀ (c : Container) (reqs : ResourceMap) (init : Bool) (i : Nat),
        c.Resources.Requests = some reqs → reqs.lookup gpu = none →
          extractionCondition c = false ∧
            ∃ pod1 calls1,
              Admit ids calls (podRequest pod) = ⟨none, .pod pod1, calls1⟩ ∧
                Admit ids calls (podRequest (withContainer pod init i c)) =
                  ⟨none, .pod (withContainer pod1 init i c), calls1⟩ := by
  refine ⟨?_, ?_, ?_⟩
  · intro c ers n
    rw [admitContainer_eq]
    constructor
    · intro hc
      rw [← isSome_scanned] at hc
      obtain ⟨q, hq⟩ := Option.isSome_iff_exists.1 hc
      rw [hq]
      exact ⟨recordFor (ids n) q, rfl, rfl⟩
    · intro hc
      rw [(scanned_eq_none_iff c).2 hc]
  · refine ⟨_, recordsOver ids calls (allContainers pod),
      congrArg Outcome.object (Admit_podRequest ids calls pod), ?_, ?_, ?_⟩
    · simp only [allContainers, recordsOver_append]
    · rw [length_recordsOver, length_scannedQuantities]
    · rw [Admit_podRequest, length_recordsOver]
      simp only [allContainers, scannedQuantities_append, List.length_append, Nat.add_assoc]
  · intro c reqs init i hreq hgpu
    have hs : scanned c = none := by rw [scanned_of_requests hreq]; exact hgpu
    exact ⟨(scanned_eq_none_iff c).1 hs, Admit_withContainer ids calls pod init i c hs⟩

/-- C16, instance: of the four containers of the sample Pod three meet the
extraction condition and three records are appended; the container with
requests `cpu: 1` and limits `nvidia.com/gpu: 1` does not meet it. -/
theorem C16_extraction_condition_witness :
    ((allContainers mixedPod).filter extractionCondition).length = 3 ∧
      extractionCondition gpuLimitCpuRequest = false ∧
      extractionCondition gpuLimitOnly = true ∧
      ∃ pod1 appended, (Admit sampleIds 0 (podRequest mixedPod)).object = .pod pod1 ∧
        pod1.Spec.ExtendedResources = mixedPod.Spec.ExtendedResources ++ appended ∧
        appended.length = ((allContainers mixedPod).filter extractionCondition).length ∧
        (Admit sampleIds 0 (podRequest mixedPod)).calls = 0 + appended.length :=
  ⟨by decide, by decide, by decide, (C16_extraction_condition sampleIds 0 mixedPod).2.1⟩

/-- C17: for every Pod and every identifier generator, `Admit` applied to the
Pod that `Admit` left returns no error, appends no record, draws no identifier
and leaves the Pod identical: no container's requests, limits or
ExtendedResourceRequests change on the second pass. -/
theorem C17_second_pass_noop (ids ids2 : Nat → String) (calls calls2 : Nat) (pod : Pod) :
    ∃ pod1, (Admit ids calls (podRequest pod)).object = .pod pod1 ∧
      Admit ids2 calls2 (podRequest pod1) = ⟨none, .pod pod1, calls2⟩ := by
  refine ⟨_, congrArg Outcome.object (Admit_podRequest ids calls pod), ?_⟩
  exact Admit_of_scanned_none ids2 calls2 _ (scanned_passOver ids _ _)
    (scanned_passOver ids _ _)

/-- C17, instance: the sample Pod after one pass keeps its three records and
its references on a second pass with the same generator. -/
theorem C17_second_pass_example :
    ∃ pod1, (Admit sampleIds 0 (podRequest mixedPod)).object = .pod pod1 ∧
      pod1.Spec.ExtendedResources.length = 3 ∧
      Admit sampleIds 3 (podRequest pod1) = ⟨none, .pod pod1, 3⟩ :=
  match C17_second_pass_noop sampleIds sampleIds 0 3 mixedPod with
  | ⟨pod1, h1, h2⟩ =>
    ⟨pod1, h1, by
      have h3 : (Admit sampleIds 0 (podRequest mixedPod)).object =
          .pod
            { Spec :=
                { InitContainers := [rewritten "u" (gpuRequest "init" 1)]
                  Containers :=
                    [rewritten "uu" (gpuRequest "a" 2), cpuOnly,
                      rewritten "uuu" (gpuRequest "b" 3)]
                  ExtendedResources :=
                    [recordFor "u" 1, recordFor "uu" 2, recordFor "uuu" 3] } } := by
        decide
      rw [h1] at h3
      cases h3
      rfl, h2⟩

/-- C18: for every Pod, after `Admit` no container's requests mapping
contains `nvidia.com/gpu`; and a container's limits mapping contains
`nvidia.com/gpu` after `Admit` if and only if before `Admit` its requests
mapping was set, did not contain `nvidia.com/gpu`, and its limits mapping
contained `nvidia.com/gpu`. -/
theorem C18_gpu_after_admit (ids : Nat → String) (calls : Nat) (pod : Pod) :
    ∃ pod1, (Admit ids calls (podRequest pod)).object = .pod pod1 ∧
      EachContainer
        (fun c c1 =>
          c1.Resources.Requests.get gpu = none ∧
            ((c1.Resources.Limits.get gpu).isSome = true ↔
              c.Resources.Requests ≠ none ∧ c.Resources.Requests.get gpu = none ∧
                (c.Resources.Limits.get gpu).isSome = true))
        pod pod1 := by
  obtain ⟨pod1, hobj, _, heach⟩ := Admit_each ids calls pod
    (fun c c1 =>
      c1.Resources.Requests.get gpu = none ∧
        ((c1.Resources.Limits.get gpu).isSome = true ↔
          c.Resources.Requests ≠ none ∧ c.Resources.Requests.get gpu = none ∧
            (c.Resources.Limits.get gpu).isSome = true))
    (by
      intro c c1 hrw
      rcases hrw with ⟨hs, h⟩ | ⟨q, k, hs, h⟩
      · subst h
        refine ⟨requests_get_of_scanned_none hs, ?_, fun h3 => h3.2.2⟩
        intro hlim
        refine ⟨?_, requests_get_of_scanned_none hs, hlim⟩
        intro hnil
        rw [scanned_of_nil_requests hnil] at hs
        rw [hs] at hlim
        cases hlim
      · subst h
        refine ⟨rewritten_requests_get _ _, ?_, ?_⟩
        · intro hlim
          rw [rewritten_limits_get] at hlim
          cases hlim
        · rintro ⟨hset, hreq, _⟩
          cases hr : c.Resources.Requests with
          | none => exact absurd hr hset
          | some reqs =>
            rw [scanned_of_requests hr] at hs
            rw [hr] at hreq
            change reqs.lookup gpu = none at hreq
            rw [hreq] at hs
            cases hs)
  exact ⟨pod1, hobj, heach⟩

/-- C18, instance: the container with requests `cpu: 1` and limits
`nvidia.com/gpu: 1` keeps its limits entry; the container with nil requests
and the same limits loses it. -/
theorem C18_gpu_after_admit_example :
    Admit sampleIds 0 (podRequest (podOf [gpuLimitCpuRequest, gpuLimitOnly])) =
      ⟨none,
       .pod
        { Spec :=
            { InitContainers := []
              Containers := [gpuLimitCpuRequest, rewritten "u" gpuLimitOnly]
              ExtendedResources := [recordFor "u" 1] } },
       1⟩ ∧
      gpuLimitCpuRequest.Resources.Limits.get gpu = some 1 ∧
      (rewritten "u" gpuLimitOnly).Resources.Limits.get gpu = none := by
  decide

/-- C19: for every Pod, `Admit` keeps the number and the order of the init
containers and of the regular containers (each place holds the container of
the same name), keeps the records already in ExtendedResources as a prefix of
the resulting sequence, and leaves every container that does not meet the
extraction condition, for which no record is appended, entirely unchanged,
its ExtendedResourceRequests included. -/
theorem C19_frame (ids : Nat → String) (calls : Nat) (pod : Pod) :
    ∃ pod1 appended, (Admit ids calls (podRequest pod)).object = .pod pod1 ∧
      pod1.Spec.ExtendedResources = pod.Spec.ExtendedResources ++ appended ∧
      pod1.Spec.InitContainers.length = pod.Spec.InitContainers.length ∧
      pod1.Spec.Containers.length = pod.Spec.Containers.length ∧
      EachContainer
        (fun c c1 => c1.Name = c.Name ∧ (extractionCondition c = false → c1 = c))
        pod pod1 := by
  obtain ⟨pod1, hobj, _, heach⟩ := Admit_each ids calls pod
    (fun c c1 => c1.Name = c.Name ∧ (extractionCondition c = false → c1 = c))
    (by
      intro c c1 hrw
      rcases hrw with ⟨_, h⟩ | ⟨q, k, hs, h⟩
      · subst h
        exact ⟨rfl, fun _ => rfl⟩
      · subst h
        refine ⟨rfl, fun hc => ?_⟩
        rw [(scanned_eq_none_iff c).2 hc] at hs
        cases hs)
  have hpod : (Admit ids calls (podRequest pod)).object = _ :=
    congrArg Outcome.object (Admit_podRequest ids calls pod)
  rw [hpod] at hobj
  cases hobj
  refine ⟨_, recordsOver ids calls (allContainers pod), hpod, ?_, ?_, ?_, heach⟩
  · simp only [allContainers, recordsOver_append]
  · exact length_passOver ids _ _
  · exact length_passOver ids _ _

end ResourceV2
